import Mathlib

/-!
Shallow embedding of the svgiconfont generator (src/index.ts).

The orchestration logic embedded here is: codepoint allocation
(`generateSvgFont`'s codepoint section), CSS text generation
(`generateCssContent`), and the output writer (the default export's
write loop).  External collaborators (svgicons2svgfont, svg2ttf,
ttf2woff, wawoff2, the filesystem) are opaque: binary artifacts are
represented by tags.

JS `Record<string, T>` objects are modelled as insertion-ordered
association lists (`List (String × T)`): assigning an existing key
keeps its position, assigning a new key appends.  JS numbers holding
codepoints are modelled as `Int`.
-/

/-- The codepoint table: insertion-ordered association list from icon
name to codepoint, modelling the JS object `codepoints`. -/
abbrev Table := List (String × Int)

/-- Property lookup `obj[name]` on a JS object: `none` models
`undefined`. -/
def lookupTab : Table → String → Option Int
  | [], _ => none
  | (k, v) :: rest, n => if k = n then some v else lookupTab rest n

/-- Generic lookup for string-valued records (the `renames` object). -/
def lookupStr : List (String × String) → String → Option String
  | [], _ => none
  | (k, v) :: rest, n => if k = n then some v else lookupStr rest n

/-- Property assignment `obj[name] = v` on a JS object: replace in
place if the key exists, append otherwise. -/
def upsert : Table → String → Int → Table
  | [], k, v => [(k, v)]
  | (k', v') :: rest, k, v =>
      if k' = k then (k, v) :: rest else (k', v') :: upsert rest k v

/-- `Object.keys(obj)`. -/
def tableKeys (t : Table) : List String := t.map Prod.fst

/-- `Object.values(obj)`. -/
def tableValues (t : Table) : List Int := t.map Prod.snd

/-- Split a character list on a separator character (kernel-reducible
counterpart of a string split; always returns at least one piece). -/
def splitOnChar (c : Char) : List Char → List (List Char)
  | [] => [[]]
  | x :: xs =>
      let r := splitOnChar c xs
      if x = c then [] :: r
      else
        match r with
        | [] => [[x]]
        | y :: ys => (x :: y) :: ys

/-- Models Node's `path.parse(file).name`: the last path segment
without its extension (a lone leading dot is not an extension). -/
def parseName (file : String) : String :=
  let base := (splitOnChar '/' file.toList).getLastD []
  let parts := splitOnChar '.' base
  if parts.length ≤ 1 then String.mk base
  else if parts.length = 2 ∧ parts.headD [] = [] then String.mk base
  else String.mk (List.intercalate ['.'] parts.dropLast)

/-- Models `cssOptions` (the `classPfx` field embeds the source's
class-name prefix option). -/
structure CssOptions where
  classPfx : Option String
  baseSelector : Option String

/-- Models `GenerateOptions` (the fields the orchestration logic
reads; font/transcoder tuning options are opaque to the claims). -/
structure GenerateOptions where
  fontName : String
  files : List String
  dest : String
  types : Option (List String)
  startCodepoint : Option Int
  codepoints : Option (List (String × Int))
  renames : Option (List (String × String))
  cssOptions : Option CssOptions

/-- `DEFAULT_FILE_OUTPUTS = ['woff2', 'woff']`. -/
def defaultOutputs : List String := ["woff2", "woff"]

/-- `DEFAULT_START_CODEPOINT = 0xf101`. -/
def defaultStart : Int := 0xf101

/-- `options.types ?? DEFAULT_FILE_OUTPUTS`. -/
def requestedTypes (o : GenerateOptions) : List String :=
  o.types.getD defaultOutputs

/-- `options.startCodepoint ?? DEFAULT_START_CODEPOINT`. -/
def startOf (o : GenerateOptions) : Int :=
  o.startCodepoint.getD defaultStart

/-- `options.cssOptions?.baseSelector ?? '.icon'`. -/
def selector (o : GenerateOptions) : String :=
  (o.cssOptions.bind CssOptions.baseSelector).getD ".icon"

/-- The class-name prefix: `options.cssOptions?.classPrefix ?? 'icon-'`. -/
def classPfx (o : GenerateOptions) : String :=
  (o.cssOptions.bind CssOptions.classPfx).getD "icon-"

/-- One step of the `do currentCodepoint += 1 while
(items.includes(currentCodepoint))` loop, with explicit fuel; the fuel
chosen in `newCodepoint` always suffices (see `findFree_spec`). -/
def findFree (items : List Int) : Int → Nat → Int
  | c, 0 => c
  | c, n + 1 => if c ∈ items then findFree items (c + 1) n else c

/-- `newCodepoint()`: starting from the cursor, pre-increment, then
advance past every occupied value; returns the first free value, which
also becomes the new cursor. -/
def newCodepoint (items : List Int) (cursor : Int) : Int :=
  findFree items (cursor + 1) (items.length + 1)

/-- The mutable state of `generateSvgFont`'s allocation section:
the `codepoints` object and `currentCodepoint`, plus a ghost log of
auto-assignments (value assigned, `Object.values(codepoints)` at the
moment of assignment) used to state monotonicity. -/
structure AllocState where
  table : Table
  cursor : Int
  events : List (Int × List Int)

/-- `Object.entries(options.codepoints ?? {}).map(([name, codepoint])
=> { codepoints[name] = codepoint; })` seeded into a fresh object. -/
def seedTable (l : List (String × Int)) : Table :=
  l.foldl (fun t e => upsert t e.1 e.2) []

/-- `options.renames?.[filename] ?? filename` applied to
`path.parse(file).name`. -/
def resolveName (renames : List (String × String)) (file : String) : String :=
  let filename := parseName file
  (lookupStr renames filename).getD filename

/-- JS truthiness test `!codepoints[name]`: true when the property is
absent (`undefined`) or equal to `0`. -/
def isFalsy : Option Int → Bool
  | none => true
  | some v => v == 0

/-- The body of `options.files.map(file => ...)`: resolve the name,
and when `!codepoints[name]`, assign `newCodepoint()`. -/
def processFile (renames : List (String × String)) (st : AllocState)
    (file : String) : AllocState :=
  let name := resolveName renames file
  if isFalsy (lookupTab st.table name) then
    let occ := tableValues st.table
    let v := newCodepoint occ st.cursor
    { table := upsert st.table name v, cursor := v,
      events := st.events ++ [(v, occ)] }
  else st

/-- The allocation section of `generateSvgFont`: seed overrides, then
process the files in order. -/
def buildAlloc (o : GenerateOptions) : AllocState :=
  o.files.foldl (processFile (o.renames.getD []))
    { table := seedTable (o.codepoints.getD []),
      cursor := startOf o, events := [] }

/-- The `codepoints` record returned by `generateSvgFont`. -/
def buildCodepoints (o : GenerateOptions) : Table :=
  (buildAlloc o).table

/-- Hex digit as produced by JS `Number.prototype.toString(16)`:
`0`-`9` then lowercase `a`-`f`. -/
def hexDigitChar (n : Nat) : Char :=
  if n < 10 then Char.ofNat (48 + n) else Char.ofNat (87 + n)

/-- Digit expansion with explicit structural fuel (kernel-reducible);
any fuel at least `n` yields the full base-16 expansion of `n`. -/
def natToHexAux : Nat → Nat → List Char
  | 0, _ => []
  | fuel + 1, n =>
      if n = 0 then [] else natToHexAux fuel (n / 16) ++ [hexDigitChar (n % 16)]

/-- Digits of `n` in base 16, most significant first, empty for 0. -/
def natToHexCore (n : Nat) : List Char := natToHexAux n n

/-- `n.toString(16)` for a natural number. -/
def natToHex (n : Nat) : String :=
  if n = 0 then "0" else String.mk (natToHexCore n)

/-- `v.toString(16)` for an integer (JS renders a sign then the
magnitude). -/
def intToHex (v : Int) : String :=
  if v < 0 then "-" ++ natToHex v.natAbs else natToHex v.toNat

/-- The fixed preference order `['woff2', 'woff', 'ttf', 'svg']` of
`generateCssContent`'s `src` construction. -/
def fontOrder : List String := ["woff2", "woff", "ttf", "svg"]

/-- `type == 'ttf' ? 'truetype' : type`. -/
def formatKeyword (t : String) : String :=
  if t = "ttf" then "truetype" else t

/-- The filter step of the `src` construction: fixed order, keeping
the requested types. -/
def srcTypes (o : GenerateOptions) : List String :=
  fontOrder.filter (fun t => (requestedTypes o).contains t)

/-- The mapped `url("./name.type") format("keyword")` entries. -/
def srcEntries (o : GenerateOptions) : List String :=
  (srcTypes o).map (fun t =>
    "url(\"./" ++ o.fontName ++ "." ++ t ++ "\") format(\"" ++ formatKeyword t ++ "\")")

/-- The `@font-face` line. -/
def fontFaceLine (o : GenerateOptions) : String :=
  "@font-face \x7b font-family: " ++ o.fontName ++ "; src: " ++
    String.intercalate "," (srcEntries o) ++ "; \x7d"

/-- The fixed base rule (template literal of the source, including its
tab indentation). -/
def baseRuleText (o : GenerateOptions) : String :=
  selector o ++ " \x7b\n\t\t\tdisplay: inline-block;\n\n\t\t\tfont-family: " ++
    o.fontName ++ " !important;\n\t\t\tfont-style: normal;\n\t\t\tfont-variant: normal;\n\n\t\t\tline-height: 1;\n\t\t\ttext-rendering: auto;\n\t\t\tvertical-align: middle;\n\t\t\x7d"

/-- One per-icon rule. -/
def iconRule (sel pre name : String) (v : Int) : String :=
  sel ++ "." ++ pre ++ name ++ ":before \x7b content: \"\\" ++ intToHex v ++ "\"; \x7d"

/-- Decimal digit test for property-key characters. -/
def isDigit (c : Char) : Bool := 48 ≤ c.toNat && c.toNat ≤ 57

/-- Numeric value of a decimal digit string. -/
def digitsToNat (cs : List Char) : Nat :=
  cs.foldl (fun acc c => acc * 10 + (c.toNat - 48)) 0

/-- JS array-index test for a property key: the canonical decimal
representation (nonempty, digits only, no leading zero unless the key
is exactly `0`) of an integer below `2^32 - 1`. -/
def arrayIndex? (s : String) : Option Nat :=
  let cs := s.toList
  if cs.isEmpty then none
  else if !cs.all isDigit then none
  else if cs.headD '0' = '0' ∧ cs.length ≠ 1 then none
  else
    let v := digitsToNat cs
    if v < 4294967295 then some v else none

/-- Whether a table entry's key is an array index. -/
def isIndexEntry (e : String × Int) : Bool := (arrayIndex? e.1).isSome

/-- Insert an entry into a list sorted by ascending array-index value
(only applied to entries whose keys are array indices). -/
def insertByIdx (e : String × Int) : Table → Table
  | [] => [e]
  | f :: rest =>
      if (arrayIndex? e.1).getD 0 < (arrayIndex? f.1).getD 0 then e :: f :: rest
      else f :: insertByIdx e rest

/-- Insertion sort by ascending array-index value. -/
def sortByIdx : Table → Table
  | [] => []
  | e :: rest => insertByIdx e (sortByIdx rest)

/-- JS own-property enumeration order, as used by `Object.entries` and
`Object.keys`: entries whose keys are array indices first, in
ascending numeric order, then the remaining entries in insertion
order. -/
def jsEntries (t : Table) : Table :=
  sortByIdx (t.filter isIndexEntry) ++ t.filter (fun e => !isIndexEntry e)

/-- The `Object.entries(codepoints).map(...)` rules, in JS
enumeration order. -/
def iconRules (sel pre : String) (t : Table) : List String :=
  (jsEntries t).map (fun e => iconRule sel pre e.1 e.2)

/-- The list joined by `'\n'` in `generateCssContent`. -/
def cssLines (o : GenerateOptions) (t : Table) : List String :=
  fontFaceLine o :: baseRuleText o :: iconRules (selector o) (classPfx o) t

/-- `generateCssContent(options, codepoints)`. -/
def generateCssContent (o : GenerateOptions) (t : Table) : String :=
  String.intercalate "\n" (cssLines o t)

/-- A generated artifact, tagged by format; binary payloads are opaque
(produced by the external transcoders), the stylesheet carries its
text. -/
inductive Artifact where
  | css (content : String)
  | ttf
  | woff
  | woff2
  | svg
deriving DecidableEq, Repr

/-- The `switch (type)` of the writer's `data()` closure: `none`
models the `default: throw Error()` branch. -/
def artifactFor (cssContent : String) (t : String) : Option Artifact :=
  if t = "css" then some (.css cssContent)
  else if t = "ttf" then some .ttf
  else if t = "woff" then some .woff
  else if t = "woff2" then some .woff2
  else if t = "svg" then some .svg
  else none

/-- `path.resolve(options.dest, fontName.type)` for a relative
destination. -/
def outputPath (o : GenerateOptions) (t : String) : String :=
  o.dest ++ "/" ++ o.fontName ++ "." ++ t

/-- `['css', ...(options.types ?? DEFAULT_FILE_OUTPUTS)]`. -/
def outputTypes (o : GenerateOptions) : List String :=
  "css" :: requestedTypes o

/-- The `Promise.all` over the write tasks: each task resolves its
artifact or throws on an unknown format; the run rejects if any task
throws, otherwise yields the written (path, artifact) pairs. -/
def writeAll (o : GenerateOptions) (cssContent : String) :
    List String → Except Unit (List (String × Artifact))
  | [] => .ok []
  | t :: ts =>
      match artifactFor cssContent t with
      | some a => (writeAll o cssContent ts).map (fun l => (outputPath o t, a) :: l)
      | none => .error ()

/-- The default export's write phase: codepoints, CSS, then one write
per entry of `['css', ...types]`. -/
def runWriter (o : GenerateOptions) : Except Unit (List (String × Artifact)) :=
  writeAll o (generateCssContent o (buildCodepoints o)) (outputTypes o)

/-- The lowercase hexadecimal alphabet emitted by `toString(16)`. -/
def hexCharSet : List Char := "0123456789abcdef".toList

/-- Invariant of the allocation loop, for a given starting codepoint:
the ghost log of auto-assignments is strictly increasing, bounded by
the cursor, each assigned value avoided the values occupied at its
assignment, the cursor never falls below the start, and every
auto-assigned value is strictly above the start. -/
def allocInv (start : Int) (st : AllocState) : Prop :=
  (st.events.map Prod.fst).Pairwise (· < ·) ∧
  (∀ e ∈ st.events, e.1 ≤ st.cursor) ∧
  (∀ e ∈ st.events, e.1 ∉ e.2) ∧
  start ≤ st.cursor ∧
  (∀ e ∈ st.events, start < e.1)

/-- Request with two override names sharing one codepoint value. -/
def oC1dup : GenerateOptions :=
  { fontName := "icon", files := [], dest := "out",
    types := none, startCodepoint := none,
    codepoints := some [("a", 65), ("b", 65)],
    renames := none, cssOptions := none }

/-- Request with distinct override values and one auto-assigned file. -/
def oC1w : GenerateOptions :=
  { fontName := "icon", files := ["b.svg"], dest := "out",
    types := none, startCodepoint := none,
    codepoints := some [("a", 65)],
    renames := none, cssOptions := none }

/-- Request overriding a file's name to codepoint 0. -/
def oC2zero : GenerateOptions :=
  { fontName := "icon", files := ["a.svg"], dest := "out",
    types := none, startCodepoint := none,
    codepoints := some [("a", 0)],
    renames := none, cssOptions := none }

/-- The spec's override-priority example: name `five` overridden to
65, other files present, in both file orders. -/
def oC2five : GenerateOptions :=
  { fontName := "icon", files := ["x.svg", "five.svg"], dest := "out",
    types := none, startCodepoint := none,
    codepoints := some [("five", 65)],
    renames := none, cssOptions := none }

/-- The spec's deterministic-auto-assignment example. -/
def oC3abc : GenerateOptions :=
  { fontName := "icon", files := ["a.svg", "b.svg", "c.svg"], dest := "out",
    types := none, startCodepoint := some 0xf101, codepoints := none,
    renames := none, cssOptions := none }

/-- The spec's collision-avoidance example. -/
def oC4skip : GenerateOptions :=
  { fontName := "icon", files := ["a.svg", "b.svg"], dest := "out",
    types := none, startCodepoint := some 0xf101,
    codepoints := some [("a", 0xf102)],
    renames := none, cssOptions := none }

/-- The spec's rename-collapsing example. -/
def oC5rename : GenerateOptions :=
  { fontName := "icon", files := ["x.svg", "y.svg"], dest := "out",
    types := none, startCodepoint := none, codepoints := none,
    renames := some [("x", "icon"), ("y", "icon")], cssOptions := none }

/-- Format set `{woff2, woff}` requested in reversed order. -/
def oC6rev : GenerateOptions :=
  { fontName := "myfont", files := [], dest := "out",
    types := some ["woff", "woff2"], startCodepoint := none,
    codepoints := none, renames := none, cssOptions := none }

/-- Request with numeric icon names inserted in non-numeric order
(file `10.svg` before `9.svg`), starting codepoint 0. -/
def oC7num : GenerateOptions :=
  { fontName := "icon", files := ["10.svg", "9.svg"], dest := "out",
    types := none, startCodepoint := some 0, codepoints := none,
    renames := none, cssOptions := none }

/-- Request with no format set specified. -/
def oC8default : GenerateOptions :=
  { fontName := "f", files := [], dest := "d",
    types := none, startCodepoint := none, codepoints := none,
    renames := none, cssOptions := none }

/-- The files the writer produces for `oC8default`. -/
def writtenC8 : List (String × Artifact) :=
  [(outputPath oC8default "css",
    Artifact.css (generateCssContent oC8default (buildCodepoints oC8default))),
   (outputPath oC8default "woff2", Artifact.woff2),
   (outputPath oC8default "woff", Artifact.woff)]

/-- Request naming an unrecognized output format. -/
def oC9unknown : GenerateOptions :=
  { fontName := "f", files := [], dest := "d",
    types := some ["eot"], startCodepoint := none, codepoints := none,
    renames := none, cssOptions := none }

/-- Request overriding a name that matches no source file. -/
def oC10ghost : GenerateOptions :=
  { fontName := "icon", files := [], dest := "out",
    types := none, startCodepoint := none,
    codepoints := some [("ghost", 7)],
    renames := none, cssOptions := none }

/-! ## Helper lemmas -/

/-- An invariant preserved by every step is preserved by `foldl`. -/
theorem foldl_inv {α σ : Type} {f : σ → α → σ} {P : σ → Prop}
    (hstep : ∀ s a, P s → P (f s a)) :
    ∀ (l : List α) (s : σ), P s → P (l.foldl f s) := by
  intro l
  induction l with
  | nil => intro s h; exact h
  | cons a l ih => intro s h; exact ih (f s a) (hstep s a h)

/-- Quantitative progress of the probe loop: passing an occupied value
strictly shrinks the number of occupied values at or above the probe. -/
theorem countP_ge_strict {items : List Int} {c : Int} (hc : c ∈ items) :
    items.countP (fun x => decide (c + 1 ≤ x)) <
      items.countP (fun x => decide (c ≤ x)) := by
  induction items with
  | nil => cases hc
  | cons a l ih =>
    rcases List.mem_cons.mp hc with h | h
    · subst h
      have hle : l.countP (fun x => decide (c + 1 ≤ x)) ≤
          l.countP (fun x => decide (c ≤ x)) := by
        refine List.countP_mono_left ?_
        intro x _ hx
        simp only [decide_eq_true_eq] at hx ⊢
        omega
      simp only [List.countP_cons, decide_eq_true_eq]
      have h1 : ¬ (c + 1 ≤ c) := by omega
      have h2 : c ≤ c := le_refl c
      simp [h1, h2]
      omega
    · have hlt := ih h
      simp only [List.countP_cons, decide_eq_true_eq]
      by_cases h1 : c + 1 ≤ a <;> by_cases h2 : c ≤ a <;> simp [h1, h2] <;> omega

/-- With enough fuel, the probe loop returns a free value at or above
its starting point. -/
theorem findFree_spec (items : List Int) :
    ∀ (fuel : Nat) (c : Int),
      items.countP (fun x => decide (c ≤ x)) < fuel →
      findFree items c fuel ∉ items ∧ c ≤ findFree items c fuel := by
  intro fuel
  induction fuel with
  | zero => intro c h; omega
  | succ n ih =>
    intro c h
    by_cases hc : c ∈ items
    · have hlt := countP_ge_strict hc
      have hrec := ih (c + 1) (by omega)
      simp only [findFree, if_pos hc]
      exact ⟨hrec.1, by have := hrec.2; omega⟩
    · simp only [findFree, if_neg hc]
      exact ⟨hc, le_refl c⟩

/-- `newCodepoint` returns a value that is not occupied and is
strictly above the cursor. -/
theorem newCodepoint_spec (items : List Int) (cursor : Int) :
    newCodepoint items cursor ∉ items ∧ cursor < newCodepoint items cursor := by
  have hfuel : items.countP (fun x => decide (cursor + 1 ≤ x)) < items.length + 1 :=
    Nat.lt_succ_of_le (List.countP_le_length _)
  have h := findFree_spec items (items.length + 1) (cursor + 1) hfuel
  refine ⟨h.1, ?_⟩
  have h2 := h.2
  unfold newCodepoint
  omega

/-- Looking up the key just assigned yields the assigned value. -/
theorem lookupTab_upsert_self (t : Table) (k : String) (v : Int) :
    lookupTab (upsert t k v) k = some v := by
  induction t with
  | nil => simp [upsert, lookupTab]
  | cons e rest ih =>
    obtain ⟨k', v'⟩ := e
    by_cases h : k' = k <;> simp [upsert, lookupTab, h, ih]

/-- Assigning one key leaves every other key's lookup unchanged. -/
theorem lookupTab_upsert_ne (t : Table) {k m : String} (v : Int) (h : k ≠ m) :
    lookupTab (upsert t k v) m = lookupTab t m := by
  induction t with
  | nil => simp [upsert, lookupTab, h]
  | cons e rest ih =>
    obtain ⟨k', v'⟩ := e
    by_cases hk : k' = k
    · subst hk
      simp [upsert, lookupTab, h]
    · simp [upsert, lookupTab, hk, ih]

/-- Unfolding: values of a cons cell. -/
theorem tableValues_cons (e : String × Int) (t : Table) :
    tableValues (e :: t) = e.2 :: tableValues t := rfl

/-- Unfolding: keys of a cons cell. -/
theorem tableKeys_cons (e : String × Int) (t : Table) :
    tableKeys (e :: t) = e.1 :: tableKeys t := rfl

/-- Unfolding: assignment into the empty object. -/
theorem upsert_nil (k : String) (v : Int) : upsert [] k v = [(k, v)] := rfl

/-- Unfolding: assignment hitting the head key. -/
theorem upsert_cons_eq {k' k : String} (v' : Int) (rest : Table) (v : Int)
    (h : k' = k) : upsert ((k', v') :: rest) k v = (k, v) :: rest := by
  simp [upsert, h]

/-- Unfolding: assignment passing over the head entry. -/
theorem upsert_cons_ne {k' k : String} (v' : Int) (rest : Table) (v : Int)
    (h : ¬ k' = k) :
    upsert ((k', v') :: rest) k v = (k', v') :: upsert rest k v := by
  simp [upsert, h]

/-- A value present after an assignment is the assigned value or was
already present. -/
theorem mem_tableValues_upsert : ∀ {t : Table} {k : String} {v x : Int},
    x ∈ tableValues (upsert t k v) → x = v ∨ x ∈ tableValues t := by
  intro t
  induction t with
  | nil =>
    intro k v x h
    rw [upsert_nil, tableValues_cons] at h
    rcases List.mem_cons.mp h with h | h
    · exact Or.inl h
    · cases h
  | cons e rest ih =>
    intro k v x h
    obtain ⟨k', v'⟩ := e
    by_cases hk : k' = k
    · rw [upsert_cons_eq v' rest v hk, tableValues_cons] at h
      rw [tableValues_cons]
      rcases List.mem_cons.mp h with h | h
      · exact Or.inl h
      · exact Or.inr (List.mem_cons_of_mem _ h)
    · rw [upsert_cons_ne v' rest v hk, tableValues_cons] at h
      rw [tableValues_cons]
      rcases List.mem_cons.mp h with h | h
      · exact Or.inr (h ▸ List.mem_cons_self _ _)
      · rcases ih h with h' | h'
        · exact Or.inl h'
        · exact Or.inr (List.mem_cons_of_mem _ h')

/-- A key present after an assignment is the assigned key or was
already present. -/
theorem mem_tableKeys_upsert : ∀ {t : Table} {k m : String} {v : Int},
    m ∈ tableKeys (upsert t k v) → m = k ∨ m ∈ tableKeys t := by
  intro t
  induction t with
  | nil =>
    intro k m v h
    rw [upsert_nil, tableKeys_cons] at h
    rcases List.mem_cons.mp h with h | h
    · exact Or.inl h
    · cases h
  | cons e rest ih =>
    intro k m v h
    obtain ⟨k', v'⟩ := e
    by_cases hk : k' = k
    · rw [upsert_cons_eq v' rest v hk, tableKeys_cons] at h
      rw [tableKeys_cons]
      rcases List.mem_cons.mp h with h | h
      · exact Or.inl h
      · exact Or.inr (List.mem_cons_of_mem _ h)
    · rw [upsert_cons_ne v' rest v hk, tableKeys_cons] at h
      rw [tableKeys_cons]
      rcases List.mem_cons.mp h with h | h
      · exact Or.inr (h ▸ List.mem_cons_self _ _)
      · rcases ih h with h' | h'
        · exact Or.inl h'
        · exact Or.inr (List.mem_cons_of_mem _ h')

/-- Assigning a fresh value preserves distinctness of the values. -/
theorem tableValues_upsert_nodup : ∀ {t : Table} {k : String} {v : Int},
    (tableValues t).Nodup → v ∉ tableValues t →
    (tableValues (upsert t k v)).Nodup := by
  intro t
  induction t with
  | nil =>
    intro k v _ _
    rw [upsert_nil, tableValues_cons]
    simp [tableValues]
  | cons e rest ih =>
    intro k v hn hv
    obtain ⟨k', v'⟩ := e
    rw [tableValues_cons] at hn hv
    have hn1 : v' ∉ tableValues rest := (List.nodup_cons.mp hn).1
    have hn2 : (tableValues rest).Nodup := (List.nodup_cons.mp hn).2
    have hv1 : v ≠ v' := fun h => hv (h ▸ List.mem_cons_self _ _)
    have hv2 : v ∉ tableValues rest := fun h => hv (List.mem_cons_of_mem _ h)
    by_cases hk : k' = k
    · rw [upsert_cons_eq v' rest v hk, tableValues_cons]
      exact List.nodup_cons.mpr ⟨hv2, hn2⟩
    · rw [upsert_cons_ne v' rest v hk, tableValues_cons]
      refine List.nodup_cons.mpr ⟨?_, ih hn2 hv2⟩
      intro hmem
      rcases mem_tableValues_upsert hmem with h | h
      · exact hv1 h.symm
      · exact hn1 h

/-- Assignment preserves distinctness of the keys. -/
theorem tableKeys_upsert_nodup : ∀ {t : Table} (k : String) (v : Int),
    (tableKeys t).Nodup → (tableKeys (upsert t k v)).Nodup := by
  intro t
  induction t with
  | nil =>
    intro k v _
    rw [upsert_nil, tableKeys_cons]
    simp [tableKeys]
  | cons e rest ih =>
    intro k v hn
    obtain ⟨k', v'⟩ := e
    rw [tableKeys_cons] at hn
    have hn1 : k' ∉ tableKeys rest := (List.nodup_cons.mp hn).1
    have hn2 : (tableKeys rest).Nodup := (List.nodup_cons.mp hn).2
    by_cases hk : k' = k
    · rw [upsert_cons_eq v' rest v hk, tableKeys_cons]
      exact List.nodup_cons.mpr ⟨hk ▸ hn1, hn2⟩
    · rw [upsert_cons_ne v' rest v hk, tableKeys_cons]
      refine List.nodup_cons.mpr ⟨?_, ih k v hn2⟩
      intro hmem
      rcases mem_tableKeys_upsert hmem with h | h
      · exact hk (show k' = k from h)
      · exact hn1 h

/-- Assignment never removes a key. -/
theorem lookupTab_isSome_upsert {t : Table} {m : String} (k : String) (v : Int)
    (h : (lookupTab t m).isSome) : (lookupTab (upsert t k v) m).isSome := by
  by_cases hk : k = m
  · subst hk
    simp [lookupTab_upsert_self]
  · rw [lookupTab_upsert_ne t v hk]
    exact h

/-- A successful lookup exhibits a table entry. -/
theorem lookupTab_mem {t : Table} {n : String} {v : Int}
    (h : lookupTab t n = some v) : (n, v) ∈ t := by
  induction t with
  | nil => simp [lookupTab] at h
  | cons e rest ih =>
    obtain ⟨k', v'⟩ := e
    by_cases hk : k' = n
    · subst hk
      simp [lookupTab] at h
      simp [h]
    · simp [lookupTab, hk] at h
      simp [ih h]

/-- Folding assignments whose keys avoid `n` leaves `n`'s lookup
unchanged. -/
theorem foldl_upsert_lookup_not_mem :
    ∀ (l : List (String × Int)) (t : Table) (n : String),
      n ∉ l.map Prod.fst →
      lookupTab (l.foldl (fun t e => upsert t e.1 e.2) t) n = lookupTab t n := by
  intro l
  induction l with
  | nil => intro t n _; rfl
  | cons e rest ih =>
    intro t n hn
    simp only [List.map_cons, List.mem_cons, not_or] at hn
    rw [List.foldl_cons, ih _ n hn.2]
    exact lookupTab_upsert_ne t e.2 (fun h => hn.1 h.symm)

/-- Seeding a record with distinct keys makes each entry retrievable. -/
theorem seed_lookup_aux :
    ∀ (l : List (String × Int)) (t : Table) (n : String) (v : Int),
      (l.map Prod.fst).Nodup → (n, v) ∈ l →
      lookupTab (l.foldl (fun t e => upsert t e.1 e.2) t) n = some v := by
  intro l
  induction l with
  | nil => intro t n v _ h; cases h
  | cons e rest ih =>
    obtain ⟨n', v'⟩ := e
    intro t n v hnd hmem
    simp only [List.map_cons] at hnd
    have hnd1 := (List.nodup_cons.mp hnd).1
    have hnd2 := (List.nodup_cons.mp hnd).2
    rw [List.foldl_cons]
    rcases List.mem_cons.mp hmem with h | h
    · rw [Prod.mk.injEq] at h
      obtain ⟨rfl, rfl⟩ := h
      rw [foldl_upsert_lookup_not_mem rest _ n hnd1]
      exact lookupTab_upsert_self t n v
    · exact ih _ n v hnd2 h

/-- Folding assignments never removes a key. -/
theorem foldl_upsert_isSome (l : List (String × Int)) (t : Table) (n : String)
    (h : (lookupTab t n).isSome) :
    (lookupTab (l.foldl (fun t e => upsert t e.1 e.2) t) n).isSome := by
  induction l generalizing t with
  | nil => exact h
  | cons e rest ih => exact ih _ (lookupTab_isSome_upsert e.1 e.2 h)

/-- Seeding makes every mentioned key present (even with duplicate
keys in the record). -/
theorem seed_lookup_isSome_aux :
    ∀ (l : List (String × Int)) (t : Table) (n : String) (v : Int),
      (n, v) ∈ l →
      (lookupTab (l.foldl (fun t e => upsert t e.1 e.2) t) n).isSome := by
  intro l
  induction l with
  | nil => intro t n v h; cases h
  | cons e rest ih =>
    obtain ⟨n', v'⟩ := e
    intro t n v hmem
    rw [List.foldl_cons]
    rcases List.mem_cons.mp hmem with h | h
    · rw [Prod.mk.injEq] at h
      obtain ⟨rfl, rfl⟩ := h
      refine foldl_upsert_isSome rest _ n ?_
      rw [lookupTab_upsert_self]
      rfl
    · exact ih _ n v h

/-- Seeding a record whose values are pairwise distinct (and disjoint
from the accumulator's) keeps the values pairwise distinct. -/
theorem seed_values_nodup_aux :
    ∀ (l : List (String × Int)) (t : Table),
      (tableValues t).Nodup → (l.map Prod.snd).Nodup →
      (∀ x ∈ l.map Prod.snd, x ∉ tableValues t) →
      (tableValues (l.foldl (fun t e => upsert t e.1 e.2) t)).Nodup := by
  intro l
  induction l with
  | nil => intro t h _ _; exact h
  | cons e rest ih =>
    obtain ⟨n', v'⟩ := e
    intro t ht hl hdisj
    simp only [List.map_cons] at hl hdisj
    have hl1 : v' ∉ rest.map Prod.snd := (List.nodup_cons.mp hl).1
    have hl2 := (List.nodup_cons.mp hl).2
    have hv' : v' ∉ tableValues t := hdisj v' (List.mem_cons_self _ _)
    rw [List.foldl_cons]
    refine ih (upsert t n' v') (tableValues_upsert_nodup ht hv') hl2 ?_
    intro x hx hmem
    rcases mem_tableValues_upsert hmem with h | h
    · exact hl1 (h ▸ hx)
    · exact hdisj x (List.mem_cons_of_mem _ hx) h

/-- Seeding never creates duplicate keys. -/
theorem seed_keys_nodup_aux (l : List (String × Int)) (t : Table)
    (h : (tableKeys t).Nodup) :
    (tableKeys (l.foldl (fun t e => upsert t e.1 e.2) t)).Nodup := by
  induction l generalizing t with
  | nil => exact h
  | cons e rest ih => exact ih _ (tableKeys_upsert_nodup e.1 e.2 h)

/-- Unfolding `processFile`. -/
theorem processFile_eq (renames : List (String × String)) (st : AllocState)
    (file : String) :
    processFile renames st file =
      if isFalsy (lookupTab st.table (resolveName renames file)) then
        { table := upsert st.table (resolveName renames file)
            (newCodepoint (tableValues st.table) st.cursor),
          cursor := newCodepoint (tableValues st.table) st.cursor,
          events := st.events ++
            [(newCodepoint (tableValues st.table) st.cursor, tableValues st.table)] }
      else st := rfl

/-- Processing one file preserves distinctness of the values. -/
theorem processFile_values_nodup (renames : List (String × String))
    (st : AllocState) (file : String) (h : (tableValues st.table).Nodup) :
    (tableValues (processFile renames st file).table).Nodup := by
  rw [processFile_eq]
  by_cases hf : isFalsy (lookupTab st.table (resolveName renames file)) = true
  · rw [if_pos hf]
    exact tableValues_upsert_nodup h (newCodepoint_spec _ _).1
  · rw [if_neg hf]
    exact h

/-- Processing one file preserves distinctness of the keys. -/
theorem processFile_keys_nodup (renames : List (String × String))
    (st : AllocState) (file : String) (h : (tableKeys st.table).Nodup) :
    (tableKeys (processFile renames st file).table).Nodup := by
  rw [processFile_eq]
  by_cases hf : isFalsy (lookupTab st.table (resolveName renames file)) = true
  · rw [if_pos hf]
    exact tableKeys_upsert_nodup _ _ h
  · rw [if_neg hf]
    exact h

/-- A name bound to a truthy (nonzero) codepoint keeps that binding
through file processing. -/
theorem processFile_lookup_some (renames : List (String × String))
    (st : AllocState) (file : String) {n : String} {v : Int}
    (hv : v ≠ 0) (h : lookupTab st.table n = some v) :
    lookupTab (processFile renames st file).table n = some v := by
  rw [processFile_eq]
  by_cases hn : resolveName renames file = n
  · rw [hn, h]
    have hfv : isFalsy (some v) = false := by simp [isFalsy, hv]
    rw [hfv]
    simp only [Bool.false_eq_true, if_false]
    exact h
  · by_cases hf : isFalsy (lookupTab st.table (resolveName renames file)) = true
    · rw [if_pos hf]
      exact (lookupTab_upsert_ne st.table _ hn).trans h
    · rw [if_neg hf]
      exact h

/-- File processing never removes a key. -/
theorem processFile_lookup_isSome (renames : List (String × String))
    (st : AllocState) (file : String) {n : String}
    (h : (lookupTab st.table n).isSome) :
    (lookupTab (processFile renames st file).table n).isSome := by
  rw [processFile_eq]
  by_cases hf : isFalsy (lookupTab st.table (resolveName renames file)) = true
  · rw [if_pos hf]
    exact lookupTab_isSome_upsert _ _ h
  · rw [if_neg hf]
    exact h

/-- One file-processing step preserves the allocation invariant. -/
theorem processFile_allocInv (start : Int) (renames : List (String × String))
    (st : AllocState) (file : String) (h : allocInv start st) :
    allocInv start (processFile renames st file) := by
  obtain ⟨h1, h2, h3, h4, h5⟩ := h
  rw [processFile_eq]
  by_cases hf : isFalsy (lookupTab st.table (resolveName renames file)) = true
  · rw [if_pos hf]
    have hspec := newCodepoint_spec (tableValues st.table) st.cursor
    refine ⟨?_, ?_, ?_, ?_, ?_⟩
    · rw [List.map_append, List.pairwise_append]
      refine ⟨h1, List.pairwise_singleton _ _, ?_⟩
      intro a ha b hb
      simp only [List.map_cons, List.map_nil, List.mem_singleton] at hb
      subst hb
      obtain ⟨e, he, rfl⟩ := List.mem_map.mp ha
      exact lt_of_le_of_lt (h2 e he) hspec.2
    · intro e he
      rcases List.mem_append.mp he with he | he
      · exact le_of_lt (lt_of_le_of_lt (h2 e he) hspec.2)
      · simp only [List.mem_singleton] at he
        rw [he]
    · intro e he
      rcases List.mem_append.mp he with he | he
      · exact h3 e he
      · simp only [List.mem_singleton] at he
        rw [he]
        exact hspec.1
    · exact le_trans h4 (le_of_lt hspec.2)
    · intro e he
      rcases List.mem_append.mp he with he | he
      · exact h5 e he
      · simp only [List.mem_singleton] at he
        rw [he]
        exact lt_of_le_of_lt h4 hspec.2
  · rw [if_neg hf]
    exact ⟨h1, h2, h3, h4, h5⟩

/-- Any step-preserved state property holds after the whole allocation
run, given it holds of the seeded initial state. -/
theorem buildAlloc_inv (o : GenerateOptions) {P : AllocState → Prop}
    (hstep : ∀ st f, P st → P (processFile (o.renames.getD []) st f))
    (hinit : P { table := seedTable (o.codepoints.getD []),
                 cursor := startOf o, events := [] }) :
    P (buildAlloc o) :=
  foldl_inv hstep o.files _ hinit

/-- The allocation invariant holds of every finished run. -/
theorem buildAlloc_allocInv (o : GenerateOptions) :
    allocInv (startOf o) (buildAlloc o) := by
  refine buildAlloc_inv o
    (fun st f h => processFile_allocInv (startOf o) _ st f h) ?_
  exact ⟨List.Pairwise.nil,
    fun e he => absurd he (List.not_mem_nil e),
    fun e he => absurd he (List.not_mem_nil e),
    le_refl _,
    fun e he => absurd he (List.not_mem_nil e)⟩

/-- A nonzero number has a nonempty digit string. -/
theorem natToHexAux_zero (fuel : Nat) : natToHexAux fuel 0 = [] := by
  cases fuel with
  | zero => rfl
  | succ f => simp [natToHexAux]

/-- With enough fuel the digit expansion of a nonzero number is
nonempty. -/
theorem natToHexAux_ne_nil :
    ∀ (fuel n : Nat), n ≠ 0 → n ≤ fuel → natToHexAux fuel n ≠ [] := by
  intro fuel
  induction fuel with
  | zero => intro n h hle _; omega
  | succ f _ =>
    intro n h _
    simp only [natToHexAux, if_neg h]
    simp

/-- With enough fuel, the leading digit of a nonzero number is not
`'0'`: the rendering carries no leading zero-padding. -/
theorem natToHexAux_head_ne :
    ∀ (fuel n : Nat), n ≠ 0 → n ≤ fuel →
      (natToHexAux fuel n).head? ≠ some '0' := by
  intro fuel
  induction fuel with
  | zero => intro n h hle; omega
  | succ f ih =>
    intro n h hle
    simp only [natToHexAux, if_neg h]
    by_cases h16 : n / 16 = 0
    · rw [h16, natToHexAux_zero]
      simp only [List.nil_append, List.head?_cons]
      have hlt : n < 16 := by omega
      have hm : n % 16 = n := by omega
      rw [hm]
      have hdig : ∀ m : Nat, m < 16 → m ≠ 0 → hexDigitChar m ≠ '0' := by decide
      intro hc
      exact hdig n hlt h (Option.some.inj hc)
    · have hne := natToHexAux_ne_nil f (n / 16) h16 (by omega)
      rw [List.head?_append_of_ne_nil _ hne]
      exact ih (n / 16) h16 (by omega)

/-- Every digit the expansion emits lies in the lowercase hex
alphabet. -/
theorem natToHexAux_subset :
    ∀ (fuel n : Nat), ∀ c ∈ natToHexAux fuel n, c ∈ hexCharSet := by
  intro fuel
  induction fuel with
  | zero =>
    intro n c hc
    rw [show natToHexAux 0 n = [] from rfl] at hc
    cases hc
  | succ f ih =>
    intro n c hc
    by_cases h : n = 0
    · subst h
      rw [natToHexAux_zero] at hc
      cases hc
    · simp only [natToHexAux, if_neg h] at hc
      rcases List.mem_append.mp hc with h1 | h1
      · exact ih (n / 16) c h1
      · simp only [List.mem_singleton] at h1
        subst h1
        have hm : n % 16 < 16 := Nat.mod_lt _ (by omega)
        have hdig : ∀ m : Nat, m < 16 → hexDigitChar m ∈ hexCharSet := by decide
        exact hdig _ hm

/-- The leading hex digit of a nonzero number is not `'0'`. -/
theorem natToHexCore_head_ne {n : Nat} (h : n ≠ 0) :
    (natToHexCore n).head? ≠ some '0' :=
  natToHexAux_head_ne n n h (le_refl n)

/-- Every rendered hex digit lies in the lowercase hex alphabet. -/
theorem natToHexCore_subset (n : Nat) :
    ∀ c ∈ natToHexCore n, c ∈ hexCharSet :=
  natToHexAux_subset n n

/-- No leading zero-padding, lifted to `natToHex`. -/
theorem natToHex_head_ne {n : Nat} (h : n ≠ 0) :
    (natToHex n).toList.head? ≠ some '0' := by
  rw [natToHex, if_neg h]
  exact natToHexCore_head_ne h

/-- Lowercase hex alphabet, lifted to `natToHex`. -/
theorem natToHex_subset (n : Nat) : ∀ c ∈ (natToHex n).toList, c ∈ hexCharSet := by
  by_cases h : n = 0
  · rw [natToHex, if_pos h]
    decide
  · rw [natToHex, if_neg h]
    exact natToHexCore_subset n

/-- A successful write run writes exactly one file per listed type, at
the expected path, in list order. -/
theorem writeAll_ok_paths (o : GenerateOptions) (css : String) :
    ∀ (ts : List String) (l : List (String × Artifact)),
      writeAll o css ts = Except.ok l → l.map Prod.fst = ts.map (outputPath o) := by
  intro ts
  induction ts with
  | nil =>
    intro l h
    simp only [writeAll] at h
    cases h
    rfl
  | cons t ts ih =>
    intro l h
    simp only [writeAll] at h
    cases haf : artifactFor css t with
    | none =>
      rw [haf] at h
      cases h
    | some a =>
      rw [haf] at h
      cases hrec : writeAll o css ts with
      | error e =>
        rw [hrec] at h
        cases h
      | ok l2 =>
        rw [hrec] at h
        simp only [Except.map] at h
        cases h
        simp only [List.map_cons]
        rw [ih l2 hrec]

/-- An unknown type anywhere in the list makes the whole write run
reject. -/
theorem writeAll_error_of_unknown (o : GenerateOptions) (css : String) :
    ∀ (ts : List String) (t : String), t ∈ ts → artifactFor css t = none →
      writeAll o css ts = Except.error () := by
  intro ts
  induction ts with
  | nil => intro t h _; cases h
  | cons t2 ts ih =>
    intro t hmem hnone
    rcases List.mem_cons.mp hmem with h | h
    · subst h
      simp only [writeAll, hnone]
    · cases haf : artifactFor css t2 with
      | none => simp only [writeAll, haf]
      | some a =>
        simp only [writeAll, haf, ih t h hnone]
        rfl

/-- The `switch` recognizes no identifier outside the five known
formats. -/
theorem artifactFor_eq_none (css : String) {t : String}
    (h : t ∉ ["css", "ttf", "woff", "woff2", "svg"]) :
    artifactFor css t = none := by
  simp only [List.mem_cons, List.not_mem_nil, or_false, not_or] at h
  obtain ⟨h1, h2, h3, h4, h5⟩ := h
  simp [artifactFor, h1, h2, h3, h4, h5]

/-- Insertion keeps the same multiset of entries. -/
theorem insertByIdx_perm (e : String × Int) :
    ∀ (l : Table), (insertByIdx e l).Perm (e :: l) := by
  intro l
  induction l with
  | nil => exact List.Perm.refl _
  | cons f rest ih =>
    simp only [insertByIdx]
    by_cases h : (arrayIndex? e.1).getD 0 < (arrayIndex? f.1).getD 0
    · rw [if_pos h]
    · rw [if_neg h]
      exact (List.Perm.cons f ih).trans (List.Perm.swap e f rest)

/-- Sorting keeps the same multiset of entries. -/
theorem sortByIdx_perm : ∀ (l : Table), (sortByIdx l).Perm l := by
  intro l
  induction l with
  | nil => exact List.Perm.refl _
  | cons e rest ih =>
    simp only [sortByIdx]
    exact (insertByIdx_perm e (sortByIdx rest)).trans (List.Perm.cons e ih)

/-- JS enumeration order is a permutation of insertion order: every
table entry is enumerated exactly once. -/
theorem jsEntries_perm (t : Table) : (jsEntries t).Perm t := by
  unfold jsEntries
  refine ((sortByIdx_perm _).append (List.Perm.refl _)).trans ?_
  exact List.filter_append_perm isIndexEntry t

/-! ## Claim theorems -/

/-- Claim C1, counterexample: with override map `{a: 65, b: 65}` and
no files, the final table maps the two distinct names `a` and `b` to
the same codepoint 65, so uniqueness fails for this request. -/
theorem c1_counterexample :
    lookupTab (buildCodepoints oC1dup) "a" = some 65 ∧
    lookupTab (buildCodepoints oC1dup) "b" = some 65 ∧
    "a" ≠ "b" := by
  refine ⟨by decide, by decide, by decide⟩

/-- Claim C1 (amended): provided no two override entries carry the
same codepoint value, the final CodepointTable has no duplicate
codepoint values across distinct names. -/
theorem c1_uniqueness (o : GenerateOptions)
    (h : ((o.codepoints.getD []).map Prod.snd).Nodup) :
    (tableValues (buildCodepoints o)).Nodup := by
  show (tableValues (buildAlloc o).table).Nodup
  refine buildAlloc_inv o (fun st f hst => processFile_values_nodup _ st f hst) ?_
  refine seed_values_nodup_aux _ [] ?_ h ?_
  · exact List.Pairwise.nil
  · intro x _ hx
    cases hx

/-- Claim C1 witness: a concrete request with distinct override values
whose final table has pairwise distinct codepoints. -/
theorem c1_uniqueness_witness : (tableValues (buildCodepoints oC1w)).Nodup :=
  c1_uniqueness oC1w (by decide)

/-- Claim C2, counterexample: name `a` is present in the override map
with codepoint 0, yet the final table does not map `a` to 0 (the JS
falsy test `!codepoints[name]` treats the 0 override as absent and
auto-assigns over it). -/
theorem c2_counterexample :
    ("a", 0) ∈ oC2zero.codepoints.getD [] ∧
    lookupTab (buildCodepoints oC2zero) "a" ≠ some 0 := by
  refine ⟨by decide, by decide⟩

/-- Claim C2 (amended): every name overridden to a nonzero codepoint
ends up mapped to exactly its overridden value, regardless of file
ordering. -/
theorem c2_override_priority (o : GenerateOptions) {n : String} {v : Int}
    (hkeys : ((o.codepoints.getD []).map Prod.fst).Nodup)
    (hmem : (n, v) ∈ o.codepoints.getD []) (hv : v ≠ 0) :
    lookupTab (buildCodepoints o) n = some v := by
  show lookupTab (buildAlloc o).table n = some v
  refine buildAlloc_inv o (fun st f hst => processFile_lookup_some _ st f hv hst) ?_
  exact seed_lookup_aux _ [] n v hkeys hmem

/-- Claim C2 witness: the spec's example, name `five` overridden to
65 with another file present first. -/
theorem c2_override_priority_witness :
    lookupTab (buildCodepoints oC2five) "five" = some 65 :=
  c2_override_priority oC2five (by decide) (by decide) (by decide)

/-- Claim C3: with start `0xf101`, files `a, b, c` and no overrides
the table is exactly `a:0xf102, b:0xf103, c:0xf104`; and in every run
each auto-assigned value is strictly above the configured starting
value, so the start itself is never auto-assigned. -/
theorem c3_deterministic_assignment :
    buildCodepoints oC3abc = [("a", 0xf102), ("b", 0xf103), ("c", 0xf104)] ∧
    ∀ (o : GenerateOptions), ∀ e ∈ (buildAlloc o).events, startOf o < e.1 := by
  refine ⟨by decide, ?_⟩
  intro o e he
  exact (buildAlloc_allocInv o).2.2.2.2 e he

/-- Claim C3 witness: the first auto-assignment of the example run is
strictly above its starting codepoint. -/
theorem c3_deterministic_assignment_witness : startOf oC3abc < (0xf102 : Int) :=
  c3_deterministic_assignment.2 oC3abc (0xf102, ([] : List Int)) (by decide)

/-- Claim C4: auto-assigned values are monotonically non-decreasing in
file order; every auto-assigned value differs from every value
occupying the table at the moment of its assignment (manual overrides
included); and in the spec's example `b` receives `0xf103`, skipping
the occupied `0xf102`. -/
theorem c4_monotone_collision_free :
    (∀ o : GenerateOptions,
      ((buildAlloc o).events.map Prod.fst).Pairwise (· ≤ ·)) ∧
    (∀ o : GenerateOptions, ∀ e ∈ (buildAlloc o).events, e.1 ∉ e.2) ∧
    lookupTab (buildCodepoints oC4skip) "b" = some 0xf103 := by
  refine ⟨?_, ?_, by decide⟩
  · intro o
    exact List.Pairwise.imp (fun h => le_of_lt h) (buildAlloc_allocInv o).1
  · intro o e he
    exact (buildAlloc_allocInv o).2.2.1 e he

/-- Claim C4 witness: in the example run, the auto-assigned `0xf103`
avoided the occupied value set `[0xf102]`. -/
theorem c4_monotone_collision_free_witness : (0xf103 : Int) ∉ [(0xf102 : Int)] :=
  c4_monotone_collision_free.2.1 oC4skip (0xf103, [0xf102]) (by decide)

/-- Claim C5: the codepoint table never has two entries with the same
name key, and the spec's example (`x.svg` and `y.svg` both renamed to
`icon`) yields exactly the single entry `icon -> 0xf102`. -/
theorem c5_rename_collapsing :
    (∀ o : GenerateOptions, (tableKeys (buildCodepoints o)).Nodup) ∧
    buildCodepoints oC5rename = [("icon", 0xf102)] := by
  refine ⟨?_, by decide⟩
  intro o
  show (tableKeys (buildAlloc o).table).Nodup
  refine buildAlloc_inv o (fun st f hst => processFile_keys_nodup _ st f hst) ?_
  exact seed_keys_nodup_aux _ [] List.Pairwise.nil

/-- Claim C5 witness: the collapsed table of the example request. -/
theorem c5_rename_collapsing_witness :
    buildCodepoints oC5rename = [("icon", 0xf102)] :=
  c5_rename_collapsing.2

/-- Claim C6: the font-face `src` list is a sublist of the fixed
preference order `woff2, woff, ttf, svg` with no duplicates, contains
exactly the requested known formats (so one entry per requested
format, order-independent), the `truetype` keyword appears among the
format annotations iff `ttf` is requested, and the request
`{woff, woff2}` yields exactly the two entries woff2-then-woff. -/
theorem c6_fontface_entries :
    (∀ o : GenerateOptions,
      (srcTypes o).Sublist fontOrder ∧
      (srcTypes o).Nodup ∧
      (∀ t : String, t ∈ srcTypes o ↔ t ∈ fontOrder ∧ t ∈ requestedTypes o) ∧
      ("truetype" ∈ (srcTypes o).map formatKeyword ↔
        "ttf" ∈ requestedTypes o)) ∧
    srcEntries oC6rev =
      ["url(\"./myfont.woff2\") format(\"woff2\")",
       "url(\"./myfont.woff\") format(\"woff\")"] := by
  refine ⟨?_, by decide⟩
  intro o
  have hsub : (srcTypes o).Sublist fontOrder := List.filter_sublist _
  have hmemiff : ∀ t : String,
      t ∈ srcTypes o ↔ t ∈ fontOrder ∧ t ∈ requestedTypes o := by
    intro t
    unfold srcTypes
    rw [List.mem_filter]
    constructor
    · rintro ⟨h1, h2⟩
      refine ⟨h1, ?_⟩
      simpa [List.contains] using h2
    · rintro ⟨h1, h2⟩
      refine ⟨h1, ?_⟩
      simpa [List.contains] using h2
  refine ⟨hsub, hsub.nodup (by decide), hmemiff, ?_⟩
  constructor
  · intro h
    obtain ⟨t, ht, hk⟩ := List.mem_map.mp h
    obtain ⟨hf, hr⟩ := (hmemiff t).mp ht
    simp only [fontOrder, List.mem_cons, List.not_mem_nil, or_false] at hf
    rcases hf with rfl | rfl | rfl | rfl
    · exact absurd hk (by decide)
    · exact absurd hk (by decide)
    · exact hr
    · exact absurd hk (by decide)
  · intro h
    have hmem : "ttf" ∈ srcTypes o := (hmemiff "ttf").mpr ⟨by decide, h⟩
    have hkey : formatKeyword "ttf" = "truetype" := by decide
    have hm := List.mem_map_of_mem formatKeyword hmem
    rwa [hkey] at hm

/-- Claim C6 witness: the entry list for the reversed-order request is
duplicate-free. -/
theorem c6_fontface_entries_witness : (srcTypes oC6rev).Nodup :=
  (c6_fontface_entries.1 oC6rev).2.1

/-- Claim C7, counterexample: with files `10.svg` then `9.svg` the
table is built in insertion order `10, 9`, but `Object.entries`
enumerates the integer-like keys ascending, so the emitted rules are
`9` then `10` — not the insertion-order rule list the claim asserts. -/
theorem c7_counterexample :
    tableKeys (buildCodepoints oC7num) = ["10", "9"] ∧
    iconRules (selector oC7num) (classPfx oC7num) (buildCodepoints oC7num) =
      [iconRule (selector oC7num) (classPfx oC7num) "9" 2,
       iconRule (selector oC7num) (classPfx oC7num) "10" 1] ∧
    iconRules (selector oC7num) (classPfx oC7num) (buildCodepoints oC7num) ≠
      (buildCodepoints oC7num).map (fun e =>
        iconRule (selector oC7num) (classPfx oC7num) e.1 e.2) := by
  refine ⟨by decide, by decide, by decide⟩

/-- Claim C7 (amended): the generated CSS is the newline-join of a
font-face line, the base rule, and then exactly one rule per
codepoint-table entry (the enumeration is a permutation of the
table), of the shape
`<selector>.<classPrefix><name>:before { content: "\<hex>"; }`; the
rules appear in JS object enumeration order — entries whose names are
canonical array-index strings first, in ascending numeric order, then
the remaining entries in insertion order — and the hex rendering has
no leading zero-padding and uses only the lowercase hexadecimal
alphabet. -/
theorem c7_icon_rules (o : GenerateOptions) (t : Table) :
    generateCssContent o t = String.intercalate "\n" (cssLines o t) ∧
    (cssLines o t).drop 2 = (jsEntries t).map (fun e =>
      selector o ++ "." ++ classPfx o ++ e.1 ++
        ":before \x7b content: \"\\" ++ intToHex e.2 ++ "\"; \x7d") ∧
    (jsEntries t).Perm t ∧
    (∀ n : Nat, n ≠ 0 → (natToHex n).toList.head? ≠ some '0') ∧
    (∀ n : Nat, ∀ c ∈ (natToHex n).toList, c ∈ hexCharSet) := by
  refine ⟨rfl, rfl, jsEntries_perm t, ?_, ?_⟩
  · intro n hn
    exact natToHex_head_ne hn
  · intro n
    exact natToHex_subset n

/-- Claim C7 witness: `0xf102` renders without a leading zero. -/
theorem c7_icon_rules_witness : (natToHex 0xf102).toList.head? ≠ some '0' :=
  (c7_icon_rules oC3abc []).2.2.2.1 0xf102 (by decide)

/-- Claim C8: a successful run writes exactly one file per entry of
`['css', ...types]` at `<dest>/<fontName>.<type>` in that order — in
particular the stylesheet is always written — and an unspecified
format set defaults to exactly `[woff2, woff]`. -/
theorem c8_written_files (o : GenerateOptions) (l : List (String × Artifact))
    (h : runWriter o = Except.ok l) :
    l.map Prod.fst = (outputTypes o).map (outputPath o) ∧
    outputPath o "css" ∈ l.map Prod.fst ∧
    (o.types = none → requestedTypes o = ["woff2", "woff"]) := by
  have hp := writeAll_ok_paths o _ (outputTypes o) l h
  refine ⟨hp, ?_, ?_⟩
  · rw [hp]
    refine List.mem_map_of_mem _ ?_
    exact List.mem_cons_self _ _
  · intro hnone
    simp [requestedTypes, hnone, defaultOutputs]

/-- Claim C8 witness: the default-request run writes the stylesheet,
the woff2 file and the woff file, css first. -/
theorem c8_written_files_witness :
    writtenC8.map Prod.fst = (outputTypes oC8default).map (outputPath oC8default) :=
  (c8_written_files oC8default writtenC8 rfl).1

/-- Claim C9: a requested output-format identifier outside
`css, ttf, woff, woff2, svg` makes the writer reject the whole run. -/
theorem c9_unknown_format (o : GenerateOptions) (t : String)
    (hmem : t ∈ requestedTypes o)
    (hunk : t ∉ ["css", "ttf", "woff", "woff2", "svg"]) :
    runWriter o = Except.error () := by
  refine writeAll_error_of_unknown o _ (outputTypes o) t ?_
    (artifactFor_eq_none _ hunk)
  exact List.mem_cons_of_mem _ hmem

/-- Claim C9 witness: requesting the unknown format `eot` fails. -/
theorem c9_unknown_format_witness : runWriter oC9unknown = Except.error () :=
  c9_unknown_format oC9unknown "eot" (by decide) (by decide)

/-- Claim C10: every override entry leaves its name present in the
final codepoint table, even when no source file resolves to that name,
and therefore contributes its own per-icon CSS rule. -/
theorem c10_phantom_overrides (o : GenerateOptions) (n : String) (v : Int)
    (hmem : (n, v) ∈ o.codepoints.getD []) :
    (lookupTab (buildCodepoints o) n).isSome = true ∧
    ∃ w : Int, iconRule (selector o) (classPfx o) n w ∈
      iconRules (selector o) (classPfx o) (buildCodepoints o) := by
  have hsome : (lookupTab (buildCodepoints o) n).isSome = true := by
    show (lookupTab (buildAlloc o).table n).isSome = true
    refine buildAlloc_inv o (fun st f hst => processFile_lookup_isSome _ st f hst) ?_
    exact seed_lookup_isSome_aux _ [] n v hmem
  refine ⟨hsome, ?_⟩
  obtain ⟨w, hw⟩ := Option.isSome_iff_exists.mp hsome
  have hmem2 : (n, w) ∈ jsEntries (buildCodepoints o) :=
    (jsEntries_perm (buildCodepoints o)).mem_iff.mpr (lookupTab_mem hw)
  exact ⟨w, List.mem_map_of_mem _ hmem2⟩

/-- Claim C10 witness: the override `ghost -> 7` with no files leaves
`ghost` in the table. -/
theorem c10_phantom_overrides_witness :
    (lookupTab (buildCodepoints oC10ghost) "ghost").isSome = true :=
  (c10_phantom_overrides oC10ghost "ghost" 7 (by decide)).1
